import Mathlib

/-!
Verification of the PanWatch context-quality and prediction-outcome engine.

This file gives a shallow embedding, in Lean 4, of the core algorithms of the
repository (quality scoring, snapshot upsert, news ranking, k-line return
features, snapshot memory trend, and the prediction-outcome evaluator), each
translated from the Python source under `src/`, together with theorems that
settle the frozen specification claims about them.

Conventions used throughout:
* Python floats are modelled as `Rat` (the claims are about exact formulas).
* Python `None` is modelled as `Option.none`.
* Calendar days are modelled as proleptic ordinals (`Day := Nat`); a valid
  `YYYY-MM-DD` string corresponds to its ordinal, and lexicographic string
  comparison of two such strings agrees with ordinal comparison, so the SQL
  string comparisons on date columns are modelled as `Nat` comparisons.
* Python text is modelled as `String`; where Python performs substring tests
  over code points, strings are converted to `List Char` (which matches
  Python's code-point semantics).
-/

/-! ## Coverage and the quality score (src/core/context_builder.py, lines 42-58) -/

/-- Coverage flags of one symbol context, as assembled at
`context_builder.py` lines 308-316.  The production dict always carries
exactly these seven boolean keys. -/
structure Coverage where
  quote : Bool
  technical : Bool
  kline_history : Bool
  news_realtime : Bool
  news_extended : Bool
  history_news : Bool
  events : Bool
deriving DecidableEq

/-- Translation of `_estimate_quality_score` (context_builder.py lines 42-58):
start from 100, subtract a fixed penalty per missing coverage flag, then
clamp into `[0, 100]`. -/
def estimate_quality_score (c : Coverage) : Int :=
  let score : Int := 100
  let score := if !c.quote then score - 35 else score
  let score := if !c.technical then score - 25 else score
  let score := if !c.kline_history then score - 10 else score
  let score := if !c.news_realtime then score - 15 else score
  let score := if !c.news_extended then score - 10 else score
  let score := if !c.history_news then score - 10 else score
  let score := if !c.events then score - 5 else score
  max 0 (min 100 score)

/-- Coverage with every flag set. -/
def coverageAllTrue : Coverage := ⟨true, true, true, true, true, true, true⟩

/-- Coverage with every flag cleared. -/
def coverageAllFalse : Coverage := ⟨false, false, false, false, false, false, false⟩

/-- C1: for every coverage dict the quality score equals the closed-form
clamp `max 0 (min 100 (100 - Σ penalties))` with penalties 35/25/10/15/10/10/5
for missing quote/technical/kline-history/realtime-news/extended-news/
history-news/events respectively; consequently the score always lies in
`[0, 100]`, all-true coverage scores 100, and all-false coverage scores 0. -/
theorem quality_score_formula_and_bounds :
    (∀ q t k nr ne hn e : Bool,
      estimate_quality_score ⟨q, t, k, nr, ne, hn, e⟩ =
        max 0 (min 100 (100
          - (if q then 0 else 35) - (if t then 0 else 25)
          - (if k then 0 else 10) - (if nr then 0 else 15)
          - (if ne then 0 else 10) - (if hn then 0 else 10)
          - (if e then 0 else 5)))
      ∧ 0 ≤ estimate_quality_score ⟨q, t, k, nr, ne, hn, e⟩
      ∧ estimate_quality_score ⟨q, t, k, nr, ne, hn, e⟩ ≤ 100)
    ∧ estimate_quality_score coverageAllTrue = 100
    ∧ estimate_quality_score coverageAllFalse = 0 := by
  refine ⟨?_, by decide, by decide⟩
  decide

/-- C10: the quality score is monotone in coverage — forcing any single
coverage flag to `true` never decreases the computed score (hence flipping a
flag from `false` to `true` never decreases it). -/
theorem quality_score_monotone :
    ∀ q t k nr ne hn e : Bool,
      estimate_quality_score ⟨q, t, k, nr, ne, hn, e⟩ ≤
          estimate_quality_score ⟨true, t, k, nr, ne, hn, e⟩
      ∧ estimate_quality_score ⟨q, t, k, nr, ne, hn, e⟩ ≤
          estimate_quality_score ⟨q, true, k, nr, ne, hn, e⟩
      ∧ estimate_quality_score ⟨q, t, k, nr, ne, hn, e⟩ ≤
          estimate_quality_score ⟨q, t, true, nr, ne, hn, e⟩
      ∧ estimate_quality_score ⟨q, t, k, nr, ne, hn, e⟩ ≤
          estimate_quality_score ⟨q, t, k, true, ne, hn, e⟩
      ∧ estimate_quality_score ⟨q, t, k, nr, ne, hn, e⟩ ≤
          estimate_quality_score ⟨q, t, k, nr, true, hn, e⟩
      ∧ estimate_quality_score ⟨q, t, k, nr, ne, hn, e⟩ ≤
          estimate_quality_score ⟨q, t, k, nr, ne, true, e⟩
      ∧ estimate_quality_score ⟨q, t, k, nr, ne, hn, e⟩ ≤
          estimate_quality_score ⟨q, t, k, nr, ne, hn, true⟩ := by
  decide

/-! ## Stock context snapshot store (src/core/context_store.py, lines 20-64) -/

/-- Logical key of a `StockContextSnapshot` row: the four columns the upsert
in `save_stock_context_snapshot` filters on. -/
structure SnapKey where
  symbol : String
  market : String
  snapshot_date : String
  context_type : String
deriving DecidableEq

/-- One persisted `StockContextSnapshot` row.  The payload and quality JSON
documents are opaque to the store, so they are modelled by a type parameter. -/
structure SnapRow (π : Type) where
  key : SnapKey
  payload : π
  quality : π
deriving DecidableEq

/-- Translation of `save_stock_context_snapshot` (context_store.py lines
20-64): query the first row matching the four-column key; if present,
overwrite its payload and quality in place, otherwise append a new row.
The table is modelled as a list in insertion order. -/
def save_stock_context_snapshot {π : Type} [DecidableEq π]
    (db : List (SnapRow π)) (k : SnapKey) (payload quality : π) :
    List (SnapRow π) :=
  match db with
  | [] => [⟨k, payload, quality⟩]
  | r :: rest =>
    if r.key = k then ⟨k, payload, quality⟩ :: rest
    else r :: save_stock_context_snapshot rest k payload quality

/-- Number of stored rows holding a given snapshot key. -/
def snapCountKey {π : Type} [DecidableEq π] (db : List (SnapRow π)) (k : SnapKey) : Nat :=
  (db.filter (fun r => r.key = k)).length

theorem snapCountKey_cons {π : Type} [DecidableEq π]
    (r : SnapRow π) (rest : List (SnapRow π)) (k : SnapKey) :
    snapCountKey (r :: rest) k =
      (if r.key = k then 1 else 0) + snapCountKey rest k := by
  by_cases h : r.key = k <;>
    simp [snapCountKey, List.filter_cons, h, Nat.add_comm]

theorem snapCountKey_save {π : Type} [DecidableEq π]
    (db : List (SnapRow π)) (k : SnapKey) (p q : π) :
    snapCountKey (save_stock_context_snapshot db k p q) k =
      max 1 (snapCountKey db k) := by
  induction db with
  | nil => simp [save_stock_context_snapshot, snapCountKey]
  | cons r rest ih =>
    by_cases h : r.key = k
    · rw [save_stock_context_snapshot, if_pos h]
      simp [snapCountKey_cons, h]
    · rw [save_stock_context_snapshot, if_neg h]
      simp [snapCountKey_cons, h, ih]

theorem save_rows_at_key {π : Type} [DecidableEq π]
    (db : List (SnapRow π)) (k : SnapKey) (p q : π)
    (hinv : snapCountKey db k ≤ 1) :
    ∀ r ∈ save_stock_context_snapshot db k p q, r.key = k → r = ⟨k, p, q⟩ := by
  induction db with
  | nil =>
    intro r hr _
    simp only [save_stock_context_snapshot, List.mem_singleton] at hr
    exact hr
  | cons hd rest ih =>
    intro r hr hkey
    simp only [save_stock_context_snapshot] at hr
    by_cases h : hd.key = k
    · rw [if_pos h] at hr
      rcases List.mem_cons.mp hr with h1 | h1
      · exact h1
      · exfalso
        rw [snapCountKey_cons, if_pos h] at hinv
        have hrest : snapCountKey rest k = 0 := by omega
        have : r ∈ rest.filter (fun r => r.key = k) := by
          simp [List.mem_filter, h1, hkey]
        rw [snapCountKey, List.length_eq_zero] at hrest
        simp [hrest] at this
    · rw [if_neg h] at hr
      rcases List.mem_cons.mp hr with h1 | h1
      · exact absurd (h1 ▸ hkey) h
      · have hinv' : snapCountKey rest k ≤ 1 := by
          rw [snapCountKey_cons, if_neg h] at hinv
          omega
        exact ih hinv' r h1 hkey

/-- C2: starting from any table satisfying the store's uniqueness invariant
(at most one row per `(symbol, market, snapshot_date, context_type)` key),
upserting the same key twice with different payloads leaves exactly one row
for that key, and that row carries the second payload and quality. -/
theorem snapshot_upsert_idempotent {π : Type} [DecidableEq π]
    (db : List (SnapRow π)) (k : SnapKey) (p₁ q₁ p₂ q₂ : π)
    (hinv : snapCountKey db k ≤ 1) :
    snapCountKey
        (save_stock_context_snapshot
          (save_stock_context_snapshot db k p₁ q₁) k p₂ q₂) k = 1
    ∧ ∀ r ∈ save_stock_context_snapshot
          (save_stock_context_snapshot db k p₁ q₁) k p₂ q₂,
        r.key = k → r.payload = p₂ ∧ r.quality = q₂ := by
  have h1 : snapCountKey (save_stock_context_snapshot db k p₁ q₁) k = 1 := by
    rw [snapCountKey_save]; omega
  constructor
  · rw [snapCountKey_save, h1]; omega
  · intro r hr hkey
    have := save_rows_at_key (save_stock_context_snapshot db k p₁ q₁) k p₂ q₂
      (by omega) r hr hkey
    rw [this]
    exact ⟨rfl, rfl⟩

/-- Witness for C2 at a concrete store: an empty table, a concrete key and
numeric payloads. -/
theorem snapshot_upsert_idempotent_witness :
    snapCountKey
        (save_stock_context_snapshot
          (save_stock_context_snapshot ([] : List (SnapRow Nat))
            ⟨"600519", "CN", "2024-01-01", "daily_report"⟩ 1 10)
          ⟨"600519", "CN", "2024-01-01", "daily_report"⟩ 2 20)
        ⟨"600519", "CN", "2024-01-01", "daily_report"⟩ = 1
    ∧ ∀ r ∈ save_stock_context_snapshot
          (save_stock_context_snapshot ([] : List (SnapRow Nat))
            ⟨"600519", "CN", "2024-01-01", "daily_report"⟩ 1 10)
          ⟨"600519", "CN", "2024-01-01", "daily_report"⟩ 2 20,
        r.key = ⟨"600519", "CN", "2024-01-01", "daily_report"⟩ →
          r.payload = 2 ∧ r.quality = 20 :=
  snapshot_upsert_idempotent [] ⟨"600519", "CN", "2024-01-01", "daily_report"⟩
    1 10 2 20 (by decide)

/-! ## News ranking (src/core/news_ranker.py, lines 112-131) -/

/-- One news item as consumed by the ranker.  The `time` field holds the
already-parsed epoch timestamp of `parse_news_time` (`none` when the raw
value is unparseable, in which case the code substitutes recency 0). -/
structure NewsItem where
  source : String
  external_id : String
  title : String
  content : String
  time : Option Rat
  importance : Rat
  url : String
  symbols : List String
deriving DecidableEq

/-- Boolean test that `needle` is a leading segment of `hay`
(code-point-wise, as Python string operations are). -/
def startsWithSeq : List Char → List Char → Bool
  | _, [] => true
  | [], _ :: _ => false
  | h :: hs, n :: ns => h == n && startsWithSeq hs ns

/-- Boolean test that `needle` occurs contiguously inside `hay`: the model
of Python's `needle in hay` on strings. -/
def containsSeq : List Char → List Char → Bool
  | hay, needle =>
    startsWithSeq hay needle ||
      match hay with
      | [] => false
      | _ :: rest => containsSeq rest needle

/-- Python's `str(...)` rendering of a list of strings, e.g.
`str(["600519"]) = "['600519']"`, restricted to elements free of quote and
escape characters (always the case for stock symbols).  `rank_news_items`
applies `symbol in str(it.get("symbols") or [])` to this rendering. -/
def pyReprOfList (xs : List String) : List Char :=
  '[' :: (List.intercalate [',', ' ']
    (xs.map (fun s => '\'' :: (s.toList ++ ['\''])))) ++ [']']

/-- Fixed salient-keyword set of `rank_news_items` (news_ranker.py line 122). -/
def salientKeywords : List String :=
  ["重大", "业绩", "增持", "减持", "停牌", "解禁", "回购", "分红", "快报"]

/-- Translation of the inner `score` closure of `rank_news_items`
(news_ranker.py lines 113-129): a two-part key `(score, recency)`.  Note the
symbol bonus tests `symbol in str(item.symbols)` — substring containment in
the Python string rendering of the list — not list membership. -/
def newsScore (symbol : String) (it : NewsItem) : Rat × Rat :=
  let title := it.title
  let s : Rat := it.importance * 5
  let s := if !symbol.isEmpty && containsSeq (pyReprOfList it.symbols) symbol.toList
           then s + 2 else s
  let s := if salientKeywords.any (fun k => containsSeq title.toList k.toList)
           then s + 2 else s
  let s := if containsSeq title.toList "公告".toList then s + 1 else s
  let s2 : Rat := it.time.getD 0
  (s, s2)

/-- Descending comparison on the two-part ranking key, as a proposition:
`a` may precede `b` when `a`'s key is lexicographically at least `b`'s. -/
def scoreKeyGe (a b : Rat × Rat) : Prop :=
  b.1 < a.1 ∨ (a.1 = b.1 ∧ b.2 ≤ a.2)

instance (a b : Rat × Rat) : Decidable (scoreKeyGe a b) := by
  unfold scoreKeyGe; infer_instance

/-- Translation of `rank_news_items` (news_ranker.py lines 112-131):
`sorted(items, key=score, reverse=True)`, i.e. a stable sort placing larger
`(score, recency)` keys first. -/
def rank_news_items (items : List NewsItem) (symbol : String) : List NewsItem :=
  items.mergeSort (fun a b => decide (scoreKeyGe (newsScore symbol a) (newsScore symbol b)))

/-- Scoring formula exactly as the claim words it: importance × 5, plus 2 iff
the query symbol is a member of the item's symbols list, plus 2 for a salient
keyword in the title, plus 1 for "公告" in the title. -/
def claimedNewsScore (symbol : String) (it : NewsItem) : Rat :=
  it.importance * 5
    + (if symbol ∈ it.symbols then 2 else 0)
    + (if salientKeywords.any (fun k => containsSeq it.title.toList k.toList) then 2 else 0)
    + (if containsSeq it.title.toList "公告".toList then 1 else 0)

/-- Concrete item refuting the membership reading of the symbol bonus. -/
def newsCexItem : NewsItem :=
  ⟨"cls", "1", "", "", none, 0, "", ["600519"]⟩

/-- Counterexample to C7 as stated: for the query symbol "60051" and an item
whose symbols list is `["600519"]`, the code's score is 2 (the +2 symbol
bonus fires, because "60051" is a substring of "['600519']") although the
symbol is not a member of the list, where the claimed formula gives 0. -/
theorem rank_score_membership_counterexample :
    ("60051" ∉ newsCexItem.symbols)
    ∧ (newsScore "60051" newsCexItem).1 = 2
    ∧ claimedNewsScore "60051" newsCexItem = 0 := by
  refine ⟨by decide, ?_, ?_⟩
  · have h1 : (!String.isEmpty "60051"
        && containsSeq (pyReprOfList newsCexItem.symbols) (String.toList "60051")) = true := by
      decide
    have h2 : (salientKeywords.any
        (fun k => containsSeq (String.toList newsCexItem.title) k.toList)) = false := by
      decide
    have h3 : containsSeq (String.toList newsCexItem.title) (String.toList "公告") = false := by
      decide
    unfold newsScore
    dsimp only
    rw [h1, h2, h3]
    norm_num [newsCexItem]
  · have h2 : (salientKeywords.any
        (fun k => containsSeq (String.toList newsCexItem.title) k.toList)) = false := by
      decide
    have h3 : containsSeq (String.toList newsCexItem.title) (String.toList "公告") = false := by
      decide
    unfold claimedNewsScore
    rw [h2, h3]
    norm_num [newsCexItem]
    decide

theorem scoreKeyGe_trans (a b c : Rat × Rat) :
    scoreKeyGe a b → scoreKeyGe b c → scoreKeyGe a c := by
  rcases a with ⟨a1, a2⟩; rcases b with ⟨b1, b2⟩; rcases c with ⟨c1, c2⟩
  rintro (h | ⟨h1, h2⟩) (g | ⟨g1, g2⟩)
  · exact Or.inl (lt_trans g h)
  · exact Or.inl (g1 ▸ h)
  · exact Or.inl (h1 ▸ g)
  · exact Or.inr ⟨h1.trans g1, le_trans g2 h2⟩

theorem scoreKeyGe_total (a b : Rat × Rat) :
    scoreKeyGe a b ∨ scoreKeyGe b a := by
  rcases a with ⟨a1, a2⟩; rcases b with ⟨b1, b2⟩
  rcases lt_trichotomy a1 b1 with h | h | h
  · exact Or.inr (Or.inl h)
  · rcases le_total a2 b2 with h2 | h2
    · exact Or.inr (Or.inr ⟨h.symm, h2⟩)
    · exact Or.inl (Or.inr ⟨h, h2⟩)
  · exact Or.inl (Or.inl h)

/-- C7 amended: the rank score equals importance × 5, plus 2 iff the query
symbol is nonempty and occurs as a substring of the Python string rendering
of the item's symbols list (membership of a nonempty symbol implies this, but
partial matches also earn the bonus), plus 2 iff the title contains a salient
keyword, plus 1 iff the title contains "公告"; and `rank_news_items` returns a
permutation of its input sorted descending by the two-part key
`(score, recency)`. -/
theorem rank_news_score_amended (items : List NewsItem) (symbol : String) :
    (∀ it : NewsItem,
      (newsScore symbol it).1 = it.importance * 5
        + (if (!symbol.isEmpty
            && containsSeq (pyReprOfList it.symbols) symbol.toList) = true
           then 2 else 0)
        + (if salientKeywords.any (fun k => containsSeq it.title.toList k.toList) = true
           then 2 else 0)
        + (if containsSeq it.title.toList "公告".toList = true then 1 else 0))
    ∧ (rank_news_items items symbol).Perm items
    ∧ (rank_news_items items symbol).Pairwise
        (fun a b => scoreKeyGe (newsScore symbol a) (newsScore symbol b)) := by
  refine ⟨?_, List.mergeSort_perm items _, ?_⟩
  · intro it
    unfold newsScore
    dsimp only
    split_ifs <;> ring
  · have hs := @List.sorted_mergeSort NewsItem
      (fun a b => decide (scoreKeyGe (newsScore symbol a) (newsScore symbol b)))
      (fun a b c hab hbc => by
        rw [decide_eq_true_eq] at *
        exact scoreKeyGe_trans _ _ _ hab hbc)
      (fun a b => by
        rcases scoreKeyGe_total (newsScore symbol a) (newsScore symbol b) with h | h
        · simp [h]
        · simp [h])
      items
    refine List.Pairwise.imp ?_ hs
    intro a b h
    rwa [decide_eq_true_eq] at h

/-! ## Price-history return features (src/core/kline_context.py, lines 9-12 and 38-45) -/

/-- Translation of `_pct` (kline_context.py lines 9-12): percentage change of
`a` over base `b`, `none` when either input is missing or the base is zero. -/
def pct (a b : Option Rat) : Option Rat :=
  match a, b with
  | some a, some b => if b = 0 then none else some ((a - b) / b * 100)
  | _, _ => none

/-- Translation of the return-feature slice of `build_kline_history_context`
(kline_context.py lines 38-45): from the close column of the kline series
(`none` entries model bars whose `close` is `None` and are filtered out),
take `current = closes[-1]` and compute `ret_5d/ret_20d/ret_60d` against the
close 5/20/60 sessions back, guarded on series length. -/
def kline_return_features (closeFields : List (Option Rat)) :
    Option Rat × Option Rat × Option Rat :=
  let closes := closeFields.filterMap id
  let current := closes.getLast?
  (pct current (if 6 ≤ closes.length then closes.get? (closes.length - 6) else none),
   pct current (if 21 ≤ closes.length then closes.get? (closes.length - 21) else none),
   pct current (if 61 ≤ closes.length then closes.get? (closes.length - 61) else none))

theorem pct_none_right (a : Option Rat) : pct a none = none := by
  cases a <;> rfl

/-- C8: `ret_5d` equals `(latest - base)/base x 100` where the base is the
close 5 sessions back, and it is `none` when fewer than 6 closes exist or the
base close is 0; `ret_20d` and `ret_60d` behave analogously with 20/60
sessions and thresholds 21/61. -/
theorem kline_ret_formula (closeFields : List (Option Rat)) :
    (∀ cur b : Rat,
      (closeFields.filterMap id).getLast? = some cur →
      6 ≤ (closeFields.filterMap id).length →
      (closeFields.filterMap id).get?
          ((closeFields.filterMap id).length - 6) = some b →
      b ≠ 0 →
      (kline_return_features closeFields).1 = some ((cur - b) / b * 100))
    ∧ ((closeFields.filterMap id).length < 6 →
        (kline_return_features closeFields).1 = none)
    ∧ ((closeFields.filterMap id).get?
          ((closeFields.filterMap id).length - 6) = some 0 →
        (kline_return_features closeFields).1 = none)
    ∧ (∀ cur b : Rat,
      (closeFields.filterMap id).getLast? = some cur →
      21 ≤ (closeFields.filterMap id).length →
      (closeFields.filterMap id).get?
          ((closeFields.filterMap id).length - 21) = some b →
      b ≠ 0 →
      (kline_return_features closeFields).2.1 = some ((cur - b) / b * 100))
    ∧ ((closeFields.filterMap id).length < 21 →
        (kline_return_features closeFields).2.1 = none)
    ∧ (∀ cur b : Rat,
      (closeFields.filterMap id).getLast? = some cur →
      61 ≤ (closeFields.filterMap id).length →
      (closeFields.filterMap id).get?
          ((closeFields.filterMap id).length - 61) = some b →
      b ≠ 0 →
      (kline_return_features closeFields).2.2 = some ((cur - b) / b * 100))
    ∧ ((closeFields.filterMap id).length < 61 →
        (kline_return_features closeFields).2.2 = none) := by
  unfold kline_return_features
  dsimp only
  refine ⟨?_, ?_, ?_, ?_, ?_, ?_, ?_⟩
  · intro cur b hcur hlen hb hb0
    rw [if_pos hlen, hcur, hb]
    simp [pct, hb0]
  · intro hlen
    rw [if_neg (by omega), pct_none_right]
  · intro hb
    by_cases hlen : 6 ≤ (closeFields.filterMap id).length
    · rw [if_pos hlen, hb]
      cases (closeFields.filterMap id).getLast? <;> simp [pct]
    · rw [if_neg hlen, pct_none_right]
  · intro cur b hcur hlen hb hb0
    rw [if_pos hlen, hcur, hb]
    simp [pct, hb0]
  · intro hlen
    rw [if_neg (by omega), pct_none_right]
  · intro cur b hcur hlen hb hb0
    rw [if_pos hlen, hcur, hb]
    simp [pct, hb0]
  · intro hlen
    rw [if_neg (by omega), pct_none_right]

/-- Witness for C8 at the series `[10, 11, ..., 20]` of 11 closes: the base
of `ret_5d` is the close 5 sessions back (15) and the latest close is 20. -/
theorem kline_ret_formula_witness :
    (kline_return_features
        ([10, 11, 12, 13, 14, 15, 16, 17, 18, 19, 20].map Option.some)).1 =
      some (((20 : Rat) - 15) / 15 * 100) :=
  (kline_ret_formula _).1 20 15 (by rfl) (by simp) (by rfl) (by norm_num)

/-! ## Snapshot memory quality trend (src/core/context_builder.py, lines 224-254) -/

/-- Translation of the score/trend computation of
`ContextBuilder._build_snapshot_memory` (context_builder.py lines 224-254).
The input lists the `quality.score` values of the most recent (≤ 12,
newest-first) same-context-type snapshots returned by
`get_recent_stock_context_snapshots`; `none` models a snapshot whose quality
dict has no usable integer score (skipped by the code).  With at least two
sampled scores the trend compares the newest sampled score against the
oldest; otherwise it stays "flat". -/
def quality_trend_of (rows : List (Option Int)) : String :=
  let scores := rows.filterMap id
  if 2 ≤ scores.length then
    let delta := scores.head?.getD 0 - scores.getLast?.getD 0
    if 5 ≤ delta then "improving"
    else if delta ≤ -5 then "deteriorating"
    else "flat"
  else "flat"

/-- C9: with at least two sampled scores the memory quality trend is
"improving" iff newest minus oldest ≥ 5, "deteriorating" iff that delta
≤ −5, and "flat" otherwise; with fewer than two sampled scores it is
"flat". -/
theorem quality_trend_formula (rows : List (Option Int)) (s0 sl : Int) :
    ((rows.filterMap id).head? = some s0 →
     (rows.filterMap id).getLast? = some sl →
     2 ≤ (rows.filterMap id).length →
      (quality_trend_of rows = "improving" ↔ 5 ≤ s0 - sl)
      ∧ (quality_trend_of rows = "deteriorating" ↔ s0 - sl ≤ -5)
      ∧ (quality_trend_of rows = "flat" ↔ (-5 < s0 - sl ∧ s0 - sl < 5)))
    ∧ ((rows.filterMap id).length < 2 → quality_trend_of rows = "flat") := by
  constructor
  · intro hh hl hlen
    unfold quality_trend_of
    rw [if_pos hlen, hh, hl]
    dsimp only [Option.getD]
    by_cases h5 : 5 ≤ s0 - sl
    · rw [if_pos h5]
      refine ⟨by simp [h5], ?_, ?_⟩
      · constructor
        · intro h; exact absurd h (by decide)
        · intro h; omega
      · constructor
        · intro h; exact absurd h (by decide)
        · intro h; omega
    · rw [if_neg h5]
      by_cases hm5 : s0 - sl ≤ -5
      · rw [if_pos hm5]
        refine ⟨?_, by simp [hm5], ?_⟩
        · constructor
          · intro h; exact absurd h (by decide)
          · intro h; omega
        · constructor
          · intro h; exact absurd h (by decide)
          · intro h; omega
      · rw [if_neg hm5]
        refine ⟨?_, ?_, ⟨fun _ => by omega, fun _ => rfl⟩⟩
        · constructor
          · intro h; exact absurd h (by decide)
          · intro h; omega
        · constructor
          · intro h; exact absurd h (by decide)
          · intro h; omega
  · intro hlen
    unfold quality_trend_of
    rw [if_neg (by omega)]

/-- Witness for C9: newest-first sampled scores 80 and 70 (with one
unusable entry skipped) give delta 10 and trend "improving"; a single score
gives "flat". -/
theorem quality_trend_formula_witness :
    (quality_trend_of [some 80, none, some 70] = "improving" ↔ 5 ≤ (80 : Int) - 70)
    ∧ ((([some 80] : List (Option Int)).filterMap id).length < 2 →
        quality_trend_of [some 80] = "flat") :=
  ⟨((quality_trend_formula [some 80, none, some 70] 80 70).1
      (by rfl) (by rfl) (by decide)).1,
   (quality_trend_formula [some 80] 80 80).2⟩

/-! ## Prediction outcome ledger and evaluator
(src/core/context_store.py lines 260-314, src/core/prediction_outcome.py) -/

/-- Calendar day as a proleptic ordinal.  A valid `YYYY-MM-DD` string
corresponds to its ordinal; comparing two such strings lexicographically (as
the SQL filters do) agrees with comparing ordinals, and Python's
`date + timedelta(days=h)` is ordinal addition. -/
abbrev Day := Nat

/-- One daily kline bar as consumed by the evaluator: `date` is the parse of
`_parse_day(k.date)` (`none` for missing/unparseable dates) and `close` the
float conversion of `k.close` (`none` when missing). -/
structure Kline where
  date : Option Day
  close : Option Rat
deriving DecidableEq

/-- Modelled from the spec: `src/models/market.py` is not in the tree; the
`MarketCode` enum's members observed across the repository are CN/HK/US and
`_to_market` (prediction_outcome.py lines 30-34) upper-cases the stripped
input and falls back to CN when the value is absent or not a member. -/
def to_market (s : String) : String :=
  let t := (if s.isEmpty then "CN" else s).trim.toUpper
  if t = "CN" ∨ t = "HK" ∨ t = "US" then t else "CN"

/-- One `AgentPredictionOutcome` row.  `prediction_date` holds the result of
`_parse_day` on the stored date string (`none` when unparseable; such rows
still pass the SQL date filter, as e.g. an empty string compares `<=` any
ISO date string); `created_at` is an insertion counter used only for
ordering. -/
structure PredRow where
  id : Nat
  agent_name : String
  stock_symbol : String
  stock_market : String
  prediction_date : Option Day
  horizon_days : Nat
  confidence : Option Rat
  trigger_price : Option Rat
  outcome_price : Option Rat
  outcome_return_pct : Option Rat
  outcome_status : String
  created_at : Nat
deriving DecidableEq

/-- SQL filter of `list_pending_prediction_outcomes` (context_store.py lines
298-304): status is "pending", horizon within bound, prediction date not in
the future. -/
def pendFilter (today : Day) (maxH : Nat) (r : PredRow) : Bool :=
  r.outcome_status == "pending" && decide (r.horizon_days ≤ maxH)
    && (match r.prediction_date with
        | some d => decide (d ≤ today)
        | none => true)

/-- ORDER BY `(prediction_date asc, created_at asc)` of
`list_pending_prediction_outcomes`; rows with unparseable dates are ordered
as day 0 (their relative order is irrelevant to every claim). -/
def pendKeyLe (a b : PredRow) : Bool :=
  decide (a.prediction_date.getD 0 < b.prediction_date.getD 0
    ∨ (a.prediction_date.getD 0 = b.prediction_date.getD 0
        ∧ a.created_at ≤ b.created_at))

/-- Translation of `list_pending_prediction_outcomes` (context_store.py lines
290-314): filter pending due rows, order by `(prediction_date, created_at)`
ascending, cap at `lim`. -/
def list_pending_prediction_outcomes
    (today : Day) (maxH lim : Nat) (db : List PredRow) : List PredRow :=
  ((db.filter (pendFilter today maxH)).mergeSort pendKeyLe).take lim

/-- Field update applied by `mark_agent_prediction_outcome` to the selected
row (context_store.py lines 276-279; the wall-clock `evaluated_at` stamp is
not modelled). -/
def setOutcome (r : PredRow) (op orp : Option Rat) (status : String) : PredRow :=
  { r with outcome_price := op, outcome_return_pct := orp, outcome_status := status }

/-- Translation of `mark_agent_prediction_outcome` (context_store.py lines
260-287): update the first row whose `id` matches and report success; report
failure when no row matches. -/
def mark_agent_prediction_outcome
    (db : List PredRow) (record_id : Nat) (op orp : Option Rat) (status : String) :
    List PredRow × Bool :=
  match db with
  | [] => ([], false)
  | r :: rest =>
    if r.id = record_id then (setOutcome r op orp status :: rest, true)
    else
      let rec2 := mark_agent_prediction_outcome rest record_id op orp status
      (r :: rec2.1, rec2.2)

/-- Date/close pairs extracted from a kline list, as
`_pick_close_on_or_before` builds its `rows` (prediction_outcome.py lines
40-49): bars with an unparseable date or missing close are dropped. -/
def klineRows (klines : List Kline) : List (Day × Rat) :=
  klines.filterMap (fun k =>
    match k.date, k.close with
    | some d, some c => some (d, c)
    | _, _ => none)

/-- Translation of `_pick_close_on_or_before` (prediction_outcome.py lines
37-56): stable-sort the extracted rows by date ascending and scan them from
the latest backwards for the first date on or before `target`. -/
def pick_close_on_or_before (klines : List Kline) (target : Day) : Option Rat :=
  let sorted := (klineRows klines).mergeSort (fun a b => decide (a.1 ≤ b.1))
  ((sorted.reverse.find? (fun pr => decide (pr.1 ≤ target))).map (fun pr => pr.2))

/-- Aggregate counters returned by `evaluate_pending_prediction_outcomes`
(prediction_outcome.py lines 68-75). -/
structure EvalStats where
  total_pending : Nat
  eligible : Nat
  evaluated : Nat
  skipped_not_due : Nat
  skipped_invalid_date : Nat
  skipped_no_price : Nat
deriving DecidableEq

/-- Parameters of one evaluator invocation: "today", the horizon and batch
bounds, and the external daily-OHLC source (spec §6 collaborator backing
`KlineCollector(market).get_klines(symbol, days)`, whose collector module is
outside the core; failures are modelled as an empty list). -/
structure EvalParams where
  today : Day
  maxHorizonDays : Nat
  lim : Nat
  getKlines : String → String → Nat → List Kline

/-- Per-invocation kline cache keyed by `(symbol, market)`
(prediction_outcome.py line 80). -/
abbrev KlineCache := List ((String × String) × List Kline)

/-- Kline fetch with per-run caching (prediction_outcome.py lines 95-113):
on a cache miss, fetch `min(max(120, age+30), 600)` days of bars and cache
them under `(symbol, market)`. -/
def resolveKlines (p : EvalParams) (cache : KlineCache) (rec : PredRow)
    (predDay : Day) : List Kline × KlineCache :=
  let key := (rec.stock_symbol, to_market rec.stock_market)
  match cache.lookup key with
  | some kl => (kl, cache)
  | none =>
    let lookback := max 120 ((p.today - predDay) + 30)
    let kl := p.getKlines key.1 key.2 (min lookback 600)
    (kl, (key, kl) :: cache)

/-- Loop body of `evaluate_pending_prediction_outcomes` for one pending row
(prediction_outcome.py lines 82-144): skip rows with unparseable dates;
skip rows not yet due; otherwise fetch klines, find the outcome close on or
before the target day (retryable skip when absent), determine the base
price (positive trigger price first, else latest close on or before the
prediction date), and write the terminal outcome. -/
def evalRecord (p : EvalParams) (st : EvalStats) (db : List PredRow)
    (cache : KlineCache) (rec : PredRow) :
    EvalStats × List PredRow × KlineCache :=
  match rec.prediction_date with
  | none => ({ st with skipped_invalid_date := st.skipped_invalid_date + 1 }, db, cache)
  | some predDay =>
    let horizon := max 1 rec.horizon_days
    let targetDay := predDay + horizon
    if p.today < targetDay then
      ({ st with skipped_not_due := st.skipped_not_due + 1 }, db, cache)
    else
      let st := { st with eligible := st.eligible + 1 }
      let kc := resolveKlines p cache rec predDay
      match pick_close_on_or_before kc.1 targetDay with
      | none => ({ st with skipped_no_price := st.skipped_no_price + 1 }, db, kc.2)
      | some outcomePrice =>
        let basePrice :=
          match rec.trigger_price with
          | some t => if 0 < t then some t else pick_close_on_or_before kc.1 predDay
          | none => pick_close_on_or_before kc.1 predDay
        match basePrice with
        | some b =>
          if 0 < b then
            let ret := (outcomePrice - b) / b * 100
            let md := mark_agent_prediction_outcome db rec.id
              (some outcomePrice) (some ret) "evaluated"
            ({ st with evaluated := st.evaluated + (if md.2 then 1 else 0) }, md.1, kc.2)
          else
            let md := mark_agent_prediction_outcome db rec.id
              (some outcomePrice) none "no_base_price"
            ({ st with evaluated := st.evaluated + (if md.2 then 1 else 0) }, md.1, kc.2)
        | none =>
          let md := mark_agent_prediction_outcome db rec.id
            (some outcomePrice) none "no_base_price"
          ({ st with evaluated := st.evaluated + (if md.2 then 1 else 0) }, md.1, kc.2)

/-- Translation of `evaluate_pending_prediction_outcomes`
(prediction_outcome.py lines 59-146): list the pending batch once, then fold
the per-row step over it, threading the table, the counters and the kline
cache; returns the updated table and the counters. -/
def evaluate_pending_prediction_outcomes (p : EvalParams) (db : List PredRow) :
    List PredRow × EvalStats :=
  let pending := list_pending_prediction_outcomes p.today p.maxHorizonDays p.lim db
  let init : EvalStats := ⟨pending.length, 0, 0, 0, 0, 0⟩
  let final := pending.foldl
    (fun acc rec => evalRecord p acc.1 acc.2.1 acc.2.2 rec)
    (init, db, ([] : KlineCache))
  (final.2.1, final.1)

theorem setOutcome_id (r : PredRow) (op orp : Option Rat) (s : String) :
    (setOutcome r op orp s).id = r.id := rfl

theorem mark_map_id (db : List PredRow) (rid : Nat) (op orp : Option Rat)
    (s : String) :
    ((mark_agent_prediction_outcome db rid op orp s).1.map (fun r => r.id)) =
      db.map (fun r => r.id) := by
  induction db with
  | nil => rfl
  | cons r rest ih =>
    by_cases h : r.id = rid
    · simp [mark_agent_prediction_outcome, h, setOutcome]
    · simp [mark_agent_prediction_outcome, h, ih]

theorem mark_get?_of_ne (db : List PredRow) (rid : Nat) (op orp : Option Rat)
    (s : String) (i : Nat) (r : PredRow)
    (hne : r.id ≠ rid) (hi : db.get? i = some r) :
    ((mark_agent_prediction_outcome db rid op orp s).1).get? i = some r := by
  induction db generalizing i with
  | nil => simp at hi
  | cons hd rest ih =>
    by_cases h : hd.id = rid
    · cases i with
      | zero =>
        exfalso
        simp only [List.get?_cons_zero, Option.some_inj] at hi
        exact hne (hi ▸ h)
      | succ n =>
        simp only [List.get?_cons_succ] at hi
        simp only [mark_agent_prediction_outcome, if_pos h, List.get?_cons_succ]
        exact hi
    · cases i with
      | zero =>
        simp only [List.get?_cons_zero] at hi
        simp only [mark_agent_prediction_outcome, if_neg h, List.get?_cons_zero]
        exact hi
      | succ n =>
        simp only [List.get?_cons_succ] at hi
        simp only [mark_agent_prediction_outcome, if_neg h, List.get?_cons_succ]
        exact ih n hi

theorem mem_list_pending (today : Day) (maxH lim : Nat) (db : List PredRow)
    (x : PredRow)
    (hx : x ∈ list_pending_prediction_outcomes today maxH lim db) :
    x ∈ db ∧ x.outcome_status = "pending" := by
  unfold list_pending_prediction_outcomes at hx
  have h1 := List.take_subset _ _ hx
  have h2 := List.mem_mergeSort.mp h1
  have h3 := List.mem_filter.mp h2
  refine ⟨h3.1, ?_⟩
  have h4 := h3.2
  unfold pendFilter at h4
  simp only [Bool.and_eq_true, beq_iff_eq] at h4
  exact h4.1.1

theorem evalRecord_get?_of_ne (p : EvalParams) (st : EvalStats)
    (db : List PredRow) (cache : KlineCache) (rec : PredRow) (i : Nat)
    (r : PredRow) (hne : r.id ≠ rec.id) (hi : db.get? i = some r) :
    ((evalRecord p st db cache rec).2.1).get? i = some r := by
  unfold evalRecord
  split
  · exact hi
  · dsimp only
    split
    · exact hi
    · split
      · exact hi
      · split
        · split
          · exact mark_get?_of_ne db rec.id _ _ _ i r hne hi
          · exact mark_get?_of_ne db rec.id _ _ _ i r hne hi
        · exact mark_get?_of_ne db rec.id _ _ _ i r hne hi

theorem evalRecord_map_id (p : EvalParams) (st : EvalStats)
    (db : List PredRow) (cache : KlineCache) (rec : PredRow) :
    ((evalRecord p st db cache rec).2.1).map (fun x => x.id) =
      db.map (fun x => x.id) := by
  unfold evalRecord
  split
  · rfl
  · dsimp only
    split
    · rfl
    · split
      · rfl
      · split
        · split
          · exact mark_map_id db rec.id _ _ _
          · exact mark_map_id db rec.id _ _ _
        · exact mark_map_id db rec.id _ _ _

theorem foldl_evalRecord_get? (p : EvalParams) (pending : List PredRow)
    (i : Nat) (r : PredRow) :
    ∀ (st : EvalStats) (db : List PredRow) (cache : KlineCache),
      (∀ rec ∈ pending, rec.id ≠ r.id) → db.get? i = some r →
      ((pending.foldl (fun acc rec => evalRecord p acc.1 acc.2.1 acc.2.2 rec)
          (st, db, cache)).2.1).get? i = some r := by
  induction pending with
  | nil => intro st db cache _ hi; exact hi
  | cons rec rest ih =>
    intro st db cache hne hi
    simp only [List.foldl_cons]
    have hrec : r.id ≠ rec.id := fun h =>
      (hne rec (List.mem_cons_self rec rest)) h.symm
    have hstep := evalRecord_get?_of_ne p st db cache rec i r hrec hi
    have := ih (evalRecord p st db cache rec).1
      (evalRecord p st db cache rec).2.1 (evalRecord p st db cache rec).2.2
      (fun x hx => hne x (List.mem_cons_of_mem rec hx)) hstep
    exact this

theorem foldl_evalRecord_map_id (p : EvalParams) (pending : List PredRow) :
    ∀ (st : EvalStats) (db : List PredRow) (cache : KlineCache),
      ((pending.foldl (fun acc rec => evalRecord p acc.1 acc.2.1 acc.2.2 rec)
          (st, db, cache)).2.1).map (fun x => x.id) = db.map (fun x => x.id) := by
  induction pending with
  | nil => intro st db cache; rfl
  | cons rec rest ih =>
    intro st db cache
    simp only [List.foldl_cons]
    rw [ih]
    exact evalRecord_map_id p st db cache rec

theorem nodup_id_ne (db : List PredRow) (i : Nat) (r x : PredRow)
    (hids : (db.map (fun y => y.id)).Nodup)
    (hi : db.get? i = some r) (hx : x ∈ db) (hne : x ≠ r) : x.id ≠ r.id := by
  intro h
  rcases List.get?_of_mem hx with ⟨j, hj⟩
  have hlen : i < db.length := by
    rcases List.get?_eq_some.mp hi with ⟨h1, _⟩
    exact h1
  have hmi : (db.map (fun y => y.id)).get? i = some r.id := by
    rw [List.get?_map, hi]; rfl
  have hmj : (db.map (fun y => y.id)).get? j = some r.id := by
    rw [List.get?_map, hj]
    simp [h]
  have hij : i = j := by
    apply List.get?_inj (by simpa using hlen) hids
    rw [hmi, hmj]
  rw [hij, hj] at hi
  exact hne (Option.some_inj.mp hi)

theorem evaluate_pending_get? (p : EvalParams) (db : List PredRow) (i : Nat)
    (r : PredRow) (hi : db.get? i = some r)
    (hterm : r.outcome_status ≠ "pending")
    (hids : (db.map (fun y => y.id)).Nodup) :
    ((evaluate_pending_prediction_outcomes p db).1).get? i = some r := by
  unfold evaluate_pending_prediction_outcomes
  dsimp only
  apply foldl_evalRecord_get?
  · intro rec hrec
    have hmem := mem_list_pending p.today p.maxHorizonDays p.lim db rec hrec
    have hner : rec ≠ r := fun h => hterm (h ▸ hmem.2)
    exact nodup_id_ne db i r rec hids hi hmem.1 hner
  · exact hi

theorem evaluate_pending_map_id (p : EvalParams) (db : List PredRow) :
    ((evaluate_pending_prediction_outcomes p db).1).map (fun x => x.id) =
      db.map (fun x => x.id) := by
  unfold evaluate_pending_prediction_outcomes
  dsimp only
  exact foldl_evalRecord_map_id p _ _ db []

/-- C3: a terminal prediction row (status other than "pending") is never
selected by `list_pending_prediction_outcomes` — which returns only rows
with status "pending" — and any sequence of `evaluate_pending` runs, with
arbitrary parameters for each run, leaves the row in place unchanged
(assuming the table's primary-key property: pairwise distinct row ids). -/
theorem terminal_rows_never_revisited (ps : List EvalParams)
    (db : List PredRow) (i : Nat) (r : PredRow)
    (hi : db.get? i = some r) (hterm : r.outcome_status ≠ "pending")
    (hids : (db.map (fun y => y.id)).Nodup) :
    (∀ p : EvalParams, ∀ x ∈ list_pending_prediction_outcomes
        p.today p.maxHorizonDays p.lim db, x.outcome_status = "pending")
    ∧ (∀ p : EvalParams, r ∉ list_pending_prediction_outcomes
        p.today p.maxHorizonDays p.lim db)
    ∧ (ps.foldl (fun d q => (evaluate_pending_prediction_outcomes q d).1) db).get? i
        = some r := by
  refine ⟨?_, ?_, ?_⟩
  · intro p x hx
    exact (mem_list_pending p.today p.maxHorizonDays p.lim db x hx).2
  · intro p hr
    exact hterm (mem_list_pending p.today p.maxHorizonDays p.lim db r hr).2
  · induction ps generalizing db with
    | nil => exact hi
    | cons p rest ih =>
      simp only [List.foldl_cons]
      apply ih
      · exact evaluate_pending_get? p db i r hi hterm hids
      · rw [evaluate_pending_map_id]
        exact hids

/-- Terminal row used by the C3 witness. -/
def terminalRow : PredRow :=
  ⟨7, "daily_report", "600519", "CN", some 10, 5, none, some 100,
    some 110, some 10, "evaluated", 0⟩

/-- Evaluator parameters used by the C3 witness: a kline source with no data. -/
def stubParams : EvalParams := ⟨20, 10, 300, fun _ _ _ => []⟩

/-- Witness for C3: a one-row table holding an already-evaluated row; a
single evaluator run leaves it in place unchanged. -/
theorem terminal_rows_never_revisited_witness :
    (([stubParams] : List EvalParams).foldl
        (fun d q => (evaluate_pending_prediction_outcomes q d).1)
        [terminalRow]).get? 0 = some terminalRow :=
  (terminal_rows_never_revisited [stubParams] [terminalRow] 0 terminalRow
    rfl (by decide) (by decide)).2.2

theorem evalRecord_due_stats (p : EvalParams) (st : EvalStats)
    (db : List PredRow) (cache : KlineCache) (rec : PredRow) (d : Day)
    (hd : rec.prediction_date = some d)
    (hdue : ¬ p.today < d + max 1 rec.horizon_days) :
    (evalRecord p st db cache rec).1.eligible = st.eligible + 1
    ∧ (evalRecord p st db cache rec).1.skipped_not_due = st.skipped_not_due := by
  unfold evalRecord
  rw [hd]
  dsimp only
  rw [if_neg hdue]
  constructor <;>
  · split
    · rfl
    · split
      · split <;> rfl
      · rfl

/-- C4: a pending row processed by the evaluator is skipped — counted as
`skipped_not_due`, with the table, the counters (beyond that one) and the
cache untouched — exactly when `prediction_date + horizon_days` is strictly
after today; when the row is due, the `skipped_not_due` counter is not
incremented. -/
theorem not_due_skip_iff (p : EvalParams) (st : EvalStats)
    (db : List PredRow) (cache : KlineCache) (rec : PredRow) (d : Day)
    (hd : rec.prediction_date = some d) (hh : 1 ≤ rec.horizon_days) :
    (evalRecord p st db cache rec =
        ({ st with skipped_not_due := st.skipped_not_due + 1 }, db, cache)
      ↔ p.today < d + rec.horizon_days)
    ∧ (d + rec.horizon_days ≤ p.today →
        (evalRecord p st db cache rec).1.skipped_not_due = st.skipped_not_due) := by
  have hmax : max 1 rec.horizon_days = rec.horizon_days := Nat.max_eq_right hh
  by_cases hdue : p.today < d + rec.horizon_days
  · constructor
    · refine ⟨fun _ => hdue, fun _ => ?_⟩
      unfold evalRecord
      rw [hd]
      dsimp only
      rw [hmax, if_pos hdue]
    · intro hc
      exact absurd hc (not_le.mpr hdue)
  · have hst := evalRecord_due_stats p st db cache rec d hd (by rw [hmax]; exact hdue)
    constructor
    · refine ⟨fun heq => ?_, fun hlt => absurd hlt hdue⟩
      have := congrArg (fun t => t.1.eligible) heq
      dsimp only at this
      rw [hst.1] at this
      omega
    · intro _
      exact hst.2

/-- Pending row used by the C4 witness: prediction day 0 with a 5-day
horizon is due on day 5. -/
def notDueRow : PredRow :=
  ⟨1, "daily_report", "600519", "CN", some 0, 5, none, none, none, none,
    "pending", 0⟩

/-- Parameters with "today" = day 2 (two days after the prediction). -/
def dayTwoParams : EvalParams := ⟨2, 10, 300, fun _ _ _ => []⟩

/-- Parameters with "today" = day 5 (the target day). -/
def dayFiveParams : EvalParams := ⟨5, 10, 300, fun _ _ _ => []⟩

/-- Zeroed counters. -/
def zeroStats : EvalStats := ⟨0, 0, 0, 0, 0, 0⟩

/-- Witness for C4 at prediction day 0 and horizon 5 (the claim's
2024-01-01/+5 example, as ordinals relative to the prediction day): on day 2
(= 2024-01-03) the row is skipped not-due with no state change, and on day 5
(= 2024-01-06) it is not counted `skipped_not_due`. -/
theorem not_due_skip_iff_witness :
    evalRecord dayTwoParams zeroStats [notDueRow] [] notDueRow =
      ({ zeroStats with skipped_not_due := zeroStats.skipped_not_due + 1 },
        [notDueRow], [])
    ∧ (evalRecord dayFiveParams zeroStats [notDueRow] [] notDueRow).1.skipped_not_due
        = zeroStats.skipped_not_due :=
  ⟨(not_due_skip_iff dayTwoParams zeroStats [notDueRow] [] notDueRow 0
      rfl (by decide)).1.mpr (by decide),
   (not_due_skip_iff dayFiveParams zeroStats [notDueRow] [] notDueRow 0
      rfl (by decide)).2 (by decide)⟩

theorem mark_self_mem (db : List PredRow) (rec : PredRow)
    (op orp : Option Rat) (s : String)
    (hids : (db.map (fun y => y.id)).Nodup) (hmem : rec ∈ db) :
    setOutcome rec op orp s ∈ (mark_agent_prediction_outcome db rec.id op orp s).1 := by
  induction db with
  | nil => simp at hmem
  | cons hd rest ih =>
    have hids' : (∀ x ∈ rest, ¬x.id = hd.id)
        ∧ (rest.map (fun y => y.id)).Nodup := by simpa using hids
    by_cases h : hd.id = rec.id
    · have hdr : hd = rec := by
        rcases List.mem_cons.mp hmem with h1 | h1
        · exact h1.symm
        · exact absurd h.symm (hids'.1 rec h1)
      simp [mark_agent_prediction_outcome, h, hdr]
    · have hmem' : rec ∈ rest := by
        rcases List.mem_cons.mp hmem with h1 | h1
        · exact absurd (congrArg (fun y => y.id) h1.symm) h
        · exact h1
      simp only [mark_agent_prediction_outcome, if_neg h]
      exact List.mem_cons_of_mem hd (ih hids'.2 hmem')

theorem pick_mem_le (klines : List Kline) (target : Day) (c : Rat)
    (hc : pick_close_on_or_before klines target = some c) :
    ∃ d, (d, c) ∈ klineRows klines ∧ d ≤ target := by
  unfold pick_close_on_or_before at hc
  dsimp only at hc
  rcases Option.map_eq_some'.mp hc with ⟨pr, hfind, hpr⟩
  have h1 := List.find?_some hfind
  rw [decide_eq_true_eq] at h1
  have h2 := List.mem_of_find?_eq_some hfind
  rw [List.mem_reverse] at h2
  have h3 := List.mem_mergeSort.mp h2
  refine ⟨pr.1, ?_, h1⟩
  rw [← hpr]
  simpa using h3

/-- C5: a due prediction with a positive recorded trigger price `B` and a
matured close `C` on or before the target day transitions to the terminal
status "evaluated" with `outcome_price = C` and
`outcome_return_pct = (C - B)/B x 100`; the trigger price is used as the
base even when closes on or before the prediction date exist. -/
theorem due_trigger_evaluated (p : EvalParams) (st : EvalStats)
    (db : List PredRow) (cache : KlineCache) (rec : PredRow) (d : Day)
    (B C : Rat)
    (hmem : rec ∈ db) (hids : (db.map (fun y => y.id)).Nodup)
    (hd : rec.prediction_date = some d)
    (hdue : d + max 1 rec.horizon_days ≤ p.today)
    (ht : rec.trigger_price = some B) (hB : 0 < B)
    (hC : pick_close_on_or_before (resolveKlines p cache rec d).1
        (d + max 1 rec.horizon_days) = some C) :
    setOutcome rec (some C) (some ((C - B) / B * 100)) "evaluated"
      ∈ (evalRecord p st db cache rec).2.1 := by
  unfold evalRecord
  rw [hd]
  dsimp only
  rw [if_neg (not_lt.mpr hdue), hC]
  dsimp only
  rw [ht]
  dsimp only
  rw [if_pos hB]
  dsimp only
  rw [if_pos hB]
  exact mark_self_mem db rec (some C) (some ((C - B) / B * 100)) "evaluated" hids hmem

/-- C6: a due prediction whose matured close `C` exists, whose trigger price
is absent or non-positive, and for which every parseable close on or before
the prediction date is non-positive (in particular when none exists at all),
transitions to the terminal status "no_base_price" with `outcome_price = C`
and `outcome_return_pct` left null. -/
theorem due_no_base_price (p : EvalParams) (st : EvalStats)
    (db : List PredRow) (cache : KlineCache) (rec : PredRow) (d : Day)
    (C : Rat)
    (hmem : rec ∈ db) (hids : (db.map (fun y => y.id)).Nodup)
    (hd : rec.prediction_date = some d)
    (hdue : d + max 1 rec.horizon_days ≤ p.today)
    (ht : rec.trigger_price = none
      ∨ ∃ t0, rec.trigger_price = some t0 ∧ t0 ≤ 0)
    (hnp : ∀ pr ∈ klineRows (resolveKlines p cache rec d).1,
        pr.1 ≤ d → pr.2 ≤ 0)
    (hC : pick_close_on_or_before (resolveKlines p cache rec d).1
        (d + max 1 rec.horizon_days) = some C) :
    setOutcome rec (some C) none "no_base_price"
      ∈ (evalRecord p st db cache rec).2.1 := by
  have hbase : ∀ b : Rat,
      pick_close_on_or_before (resolveKlines p cache rec d).1 d = some b →
      b ≤ 0 := by
    intro b hb
    rcases pick_mem_le _ d b hb with ⟨dd, hmem2, hdd⟩
    exact hnp (dd, b) hmem2 hdd
  unfold evalRecord
  rw [hd]
  dsimp only
  rw [if_neg (not_lt.mpr hdue), hC]
  dsimp only
  rcases ht with ht | ⟨t0, ht, ht0⟩ <;> rw [ht] <;> dsimp only
  · cases hpick : pick_close_on_or_before (resolveKlines p cache rec d).1 d with
    | none =>
      dsimp only
      exact mark_self_mem db rec (some C) none "no_base_price" hids hmem
    | some b =>
      dsimp only
      rw [if_neg (not_lt.mpr (hbase b hpick))]
      exact mark_self_mem db rec (some C) none "no_base_price" hids hmem
  · rw [if_neg (not_lt.mpr ht0)]
    cases hpick : pick_close_on_or_before (resolveKlines p cache rec d).1 d with
    | none =>
      dsimp only
      exact mark_self_mem db rec (some C) none "no_base_price" hids hmem
    | some b =>
      dsimp only
      rw [if_neg (not_lt.mpr (hbase b hpick))]
      exact mark_self_mem db rec (some C) none "no_base_price" hids hmem

/-- Pending row used by the C5 witness: trigger price 100, due at day 9. -/
def triggerRow : PredRow :=
  ⟨1, "daily_report", "600519", "CN", some 4, 5, none, some 100, none, none,
    "pending", 0⟩

/-- Pending row used by the C6 witness: no trigger price, and the kline
source has no bar on or before its prediction date. -/
def noBaseRow : PredRow :=
  ⟨2, "daily_report", "600519", "CN", some 4, 5, none, none, none, none,
    "pending", 0⟩

/-- Evaluator parameters whose kline source returns a single bar: close 110
at day 9. -/
def oneBarParams : EvalParams :=
  ⟨10, 10, 300, fun _ _ _ => [⟨some 9, some 110⟩]⟩

theorem oneBar_pick_target :
    pick_close_on_or_before (resolveKlines oneBarParams [] triggerRow 4).1 9
      = some 110 := by
  simp [resolveKlines, pick_close_on_or_before, klineRows, List.mergeSort,
    oneBarParams]

theorem oneBar_pick_target' :
    pick_close_on_or_before (resolveKlines oneBarParams [] noBaseRow 4).1 9
      = some 110 := by
  simp [resolveKlines, pick_close_on_or_before, klineRows, List.mergeSort,
    oneBarParams]

/-- Witness for C5: trigger price 100 and matured close 110 yield the
terminal row with status "evaluated" and return `(110-100)/100x100 = 10`. -/
theorem due_trigger_evaluated_witness :
    setOutcome triggerRow (some 110) (some 10) "evaluated"
      ∈ (evalRecord oneBarParams zeroStats [triggerRow] [] triggerRow).2.1 := by
  have h := due_trigger_evaluated oneBarParams zeroStats [triggerRow] []
    triggerRow 4 100 110 (by simp) (by decide) rfl (by decide) rfl
    (by norm_num) oneBar_pick_target
  have hr : ((110 : Rat) - 100) / 100 * 100 = 10 := by norm_num
  rwa [hr] at h

/-- Witness for C6: no trigger price and no close on or before the
prediction date yield the terminal row with status "no_base_price",
`outcome_price` 110 and a null return. -/
theorem due_no_base_price_witness :
    setOutcome noBaseRow (some 110) none "no_base_price"
      ∈ (evalRecord oneBarParams zeroStats [noBaseRow] [] noBaseRow).2.1 :=
  due_no_base_price oneBarParams zeroStats [noBaseRow] [] noBaseRow 4 110
    (by simp) (by decide) rfl (by decide) (Or.inl rfl)
    (by
      intro pr hpr hle
      exfalso
      simp [resolveKlines, klineRows, oneBarParams] at hpr
      rw [hpr] at hle
      exact absurd hle (by decide))
    oneBar_pick_target'
